import Mathlib

/-!
Verification of the orchestrator execution engine
(`src/orchestrator/orchestrator/executor.py` of the educonnect-platform
repository) against its natural-language specification.

The Python module is shallowly embedded below (in namespace `Orch`).
Conventions used throughout:

* Python `dict[str, α]` values are embedded as association lists
  `List (String × α)` preserving insertion order (CPython dicts are
  insertion ordered); `d[k] = v` becomes `dinsert`, `d[k]` becomes
  `dget`, `k in d` becomes `dhas`.
* Python `set[str]` values whose iteration order is never observed are
  embedded as `List String` with membership; `s.add` becomes `sadd`.
  The one place where set iteration order is observed —
  `next(iter(remaining))` in the dependency resolvers — is embedded as
  an explicit parameter `pick : List String → String`, because CPython
  leaves the iteration order of a `set` unspecified (it depends on
  string hashing).  A `pick` is admissible when it returns a member of
  its (nonempty) argument.
* `sorted(...)` on lists of identifiers is embedded as an insertion
  sort by code-point-lexicographic order, which agrees with Python's
  stable sort on duplicate-free inputs.
* Handlers, the coverage subprocess, and the progress reporter are
  external collaborators: handler behaviour is an environment
  `env : Task → Nat → Except String TaskResult` giving the outcome of
  the n-th invocation of the handler for a task (`.error` models a
  raised exception), the coverage check outcome is
  `venv : ValidationCheck → Bool`, and reporter callbacks are recorded
  in an event log.
* Raised exceptions crossing engine functions are modelled by an
  `Option String` component of the result (`some msg` = the exception
  propagating out of the Python function); state mutated before the
  raise is retained, as in Python.
* `asyncio` concurrency inside `_run_tasks_parallel` is modelled twice:
  by its observable effect under the event-loop schedule in which tasks
  complete in dispatch order (`run_tasks_parallel`), and by a
  small-step transition system over all admissible interleavings of the
  semaphore-bounded task coroutines (`ParStep`), used for the
  concurrency-bound claims.
-/

namespace Orch

/-! ## Data model (`config.py`) -/

/-- Individual task configuration (`config.py`, class `Task`).  The
executor reads `id`, `name` and `type`, and passes the whole task to
its handler, which is external here; handler-only fields are carried
where cheap. -/
structure Task where
  id : String
  name : String
  type : String
  target : String := ""
  priority : String := "medium"
  deriving DecidableEq

/-- Group of related tasks (`config.py`, class `Group`). -/
structure Group where
  name : String
  execution : String := "sequential"
  max_parallel : Nat := 4
  depends_on : List String := []
  tasks : List Task
  deriving DecidableEq

/-- Phase containing multiple groups (`config.py`, class `Phase`).
`groups` is a `dict[str, Group]` embedded as an insertion-ordered
association list. -/
structure Phase where
  name : String
  description : String := ""
  depends_on : List String := []
  parallel_with : List String := []
  groups : List (String × Group)
  deriving DecidableEq

/-- Global orchestrator settings (`config.py`, class
`OrchestratorSettings`).  `project_root` is only handed to handlers and
the coverage subprocess, both external, so it is not carried. -/
structure OrchestratorSettings where
  name : String := ""
  version : String := ""
  max_parallel_tasks : Nat := 4
  retry_attempts : Nat := 3
  retry_delay_seconds : Nat := 5
  timeout_minutes : Nat := 30
  fail_fast : Bool := false
  deriving DecidableEq

/-- Checkpoint validation configuration (`config.py`, class
`ValidationCheck`). -/
structure ValidationCheck where
  type : String
  target : Option Nat := none
  description : String := ""
  deriving DecidableEq

/-- Validation checkpoint configuration (`config.py`, class
`Checkpoint`). -/
structure Checkpoint where
  name : String
  validations : List ValidationCheck
  deriving DecidableEq

/-- Top-level configuration object (`config.py`, class
`OrchestratorConfig`): phases and checkpoints are keyed dicts. -/
structure OrchestratorConfig where
  orchestrator : OrchestratorSettings
  phases : List (String × Phase)
  checkpoints : List (String × Checkpoint)
  deriving DecidableEq

/-- Result of a task execution (`executor.py`, class `TaskResult`). -/
structure TaskResult where
  task_id : String
  success : Bool
  message : String := ""
  output : String := ""
  error : Option String := none
  deriving DecidableEq

/-! ## Dict and set helpers -/

/-- Lookup in an insertion-ordered association list (Python `d[k]` /
`d.get(k)`). -/
def dget {α : Type} (k : String) : List (String × α) → Option α
  | [] => none
  | (k', v) :: rest => if k' = k then some v else dget k rest

/-- Key membership (Python `k in d`). -/
def dhas {α : Type} (k : String) (d : List (String × α)) : Bool :=
  (dget k d).isSome

/-- Assignment `d[k] = v`: replaces in place when the key exists,
appends otherwise, as CPython dicts do. -/
def dinsert {α : Type} (k : String) (v : α) : List (String × α) → List (String × α)
  | [] => [(k, v)]
  | (k', v') :: rest =>
    if k' = k then (k, v) :: rest else (k', v') :: dinsert k v rest

/-- Set insertion `s.add(x)` for sets embedded as duplicate-free
lists. -/
def sadd (x : String) (s : List String) : List String :=
  if x ∈ s then s else s ++ [x]

/-! ## String ordering

Python's `sorted` on strings compares code points lexicographically.
`String.decidableLE` in this toolchain does not reduce inside the
kernel, so an equivalent executable comparison on the underlying
character lists is used instead. -/

/-- Code-point-lexicographic `≤` on character lists. -/
def strLeAux : List Char → List Char → Bool
  | [], _ => true
  | _ :: _, [] => false
  | a :: as, b :: bs =>
    if a.toNat = b.toNat then strLeAux as bs else decide (a.toNat < b.toNat)

/-- Code-point-lexicographic `≤` on strings, as used by Python's
`sorted` over identifier strings. -/
def strLe (a b : String) : Bool := strLeAux a.data b.data

/-- The propositional form of `strLe`, for use with Mathlib's sorting
theory. -/
def SLe (a b : String) : Prop := strLe a b = true

instance : DecidableRel SLe := fun a b => by
  unfold SLe; infer_instance

theorem strLeAux_total : ∀ a b, strLeAux a b = true ∨ strLeAux b a = true
  | [], _ => Or.inl rfl
  | _ :: _, [] => Or.inr rfl
  | x :: xs, y :: ys => by
    simp only [strLeAux]
    by_cases hxy : x.toNat = y.toNat
    · simp only [if_pos hxy, if_pos hxy.symm]
      exact strLeAux_total xs ys
    · simp only [if_neg hxy, if_neg (Ne.symm hxy), decide_eq_true_iff]
      omega

theorem strLeAux_trans : ∀ a b c, strLeAux a b = true → strLeAux b c = true →
    strLeAux a c = true
  | [], _, _, _, _ => rfl
  | _ :: _, [], _, hab, _ => by simp [strLeAux] at hab
  | _ :: _, _ :: _, [], _, hbc => by simp [strLeAux] at hbc
  | x :: xs, y :: ys, z :: zs, hab, hbc => by
    simp only [strLeAux] at hab hbc ⊢
    by_cases hxy : x.toNat = y.toNat
    · by_cases hyz : y.toNat = z.toNat
      · rw [if_pos hxy] at hab
        rw [if_pos hyz] at hbc
        rw [if_pos (hxy.trans hyz)]
        exact strLeAux_trans xs ys zs hab hbc
      · rw [if_neg hyz, decide_eq_true_iff] at hbc
        have hxz : x.toNat ≠ z.toNat := by omega
        rw [if_neg hxz, decide_eq_true_iff]
        omega
    · rw [if_neg hxy, decide_eq_true_iff] at hab
      by_cases hyz : y.toNat = z.toNat
      · have hxz : x.toNat ≠ z.toNat := by omega
        rw [if_neg hxz, decide_eq_true_iff]
        omega
      · rw [if_neg hyz, decide_eq_true_iff] at hbc
        have hxz : x.toNat ≠ z.toNat := by omega
        rw [if_neg hxz, decide_eq_true_iff]
        omega

instance : IsTotal String SLe :=
  ⟨fun a b => strLeAux_total a.data b.data⟩

instance : IsTrans String SLe :=
  ⟨fun a b c => strLeAux_trans a.data b.data c.data⟩

/-- Python `sorted(ready)`: a stable sort by ascending identifier.  On
duplicate-free inputs every correct sort agrees, so insertion sort is
used for kernel-executability. -/
def sortStrings (l : List String) : List String :=
  l.insertionSort SLe

theorem sortStrings_perm (l : List String) : List.Perm (sortStrings l) l :=
  List.perm_insertionSort SLe l

theorem sortStrings_sorted (l : List String) : (sortStrings l).Pairwise SLe :=
  List.sorted_insertionSort SLe l

/-! ## Dependency resolver
(`executor.py`, `PhaseExecutor._resolve_phase_order` and
`PhaseExecutor._resolve_group_order`)

Both methods run the same loop; they differ only in the readiness test:
the phase variant requires every dependency to be in `ordered`, the
group variant accepts dependencies in `self.completed_groups` as well.
The loop is factored once with a `completed` parameter; the phase
variant instantiates it with the empty list, which makes the two tests
literally identical (`d ∈ ordered ∨ d ∈ [] ↔ d ∈ ordered`).

The loop consumes fuel equal to the number of nodes: each iteration of
the Python `while remaining` loop removes at least one node from
`remaining` (the ready set when nonempty, otherwise the picked node),
so that much fuel always suffices for an admissible `pick`. -/

/-- Readiness test of the resolver's filter comprehension: every
declared dependency of `p` is already ordered or already completed. -/
def node_ready (deps : String → List String) (completed ordered : List String)
    (p : String) : Bool :=
  (deps p).all fun d => ordered.contains d || completed.contains d

/-- Readiness filter of one resolver iteration: the nodes of
`remaining` whose declared dependencies are all already ordered or
already completed. -/
def ready_nodes (deps : String → List String) (completed : List String)
    (ordered remaining : List String) : List String :=
  remaining.filter (node_ready deps completed ordered)

/-- One iteration of the resolver loop body: compute the ready set,
fall back to `next(iter(remaining))` (the `pick` parameter) when it is
empty, append it in sorted order, and drop it from `remaining`.
Returns the appended block and the new `remaining`. -/
def resolve_step (pick : List String → String) (deps : String → List String)
    (completed : List String) (ordered remaining : List String) :
    List String × List String :=
  let ready := ready_nodes deps completed ordered remaining
  let ready := if ready.isEmpty then [pick remaining] else ready
  (sortStrings ready, remaining.filter fun p => !ready.contains p)

/-- The `while remaining:` loop shared by both resolver methods. -/
def resolve_loop (pick : List String → String) (deps : String → List String)
    (completed : List String) : Nat → List String → List String → List String
  | 0, ordered, _ => ordered
  | fuel + 1, ordered, remaining =>
    if remaining.isEmpty then ordered
    else
      let s := resolve_step pick deps completed ordered remaining
      resolve_loop pick deps completed fuel (ordered ++ s.1) s.2

/-- Dependency lookup for a node set given as an association list;
resolver callers only query keys of the list. -/
def depsOf (nodes : List (String × List String)) (p : String) : List String :=
  match dget p nodes with
  | some ds => ds
  | none => []

/-- Shared body of both resolver methods: order the keys of `nodes`
respecting the dependency sets, treating `completed` as already
satisfied. -/
def resolve_order (pick : List String → String)
    (nodes : List (String × List String)) (completed : List String) : List String :=
  resolve_loop pick (depsOf nodes) completed nodes.length [] (nodes.map Prod.fst)

/-- The dependency view of `config.phases` consumed by
`_resolve_phase_order`: each phase key with its `depends_on` list. -/
def phase_dep_nodes (config : OrchestratorConfig) : List (String × List String) :=
  config.phases.map fun p => (p.1, p.2.depends_on)

/-- The dependency view of a group dict consumed by
`_resolve_group_order`: each group key with its `depends_on` list. -/
def group_dep_nodes (groups : List (String × Group)) : List (String × List String) :=
  groups.map fun p => (p.1, p.2.depends_on)

/-- `PhaseExecutor._resolve_phase_order`: resolves the order of
`config.phases` by their `depends_on` lists, with no pre-completed
set. -/
def resolve_phase_order (pick : List String → String)
    (config : OrchestratorConfig) : List String :=
  resolve_order pick (phase_dep_nodes config) []

/-- `PhaseExecutor._resolve_group_order`: resolves the order of the
given groups by their `depends_on` lists, where dependencies already in
`self.completed_groups` also count as satisfied. -/
def resolve_group_order (pick : List String → String)
    (groups : List (String × Group)) (completed_groups : List String) : List String :=
  resolve_order pick (group_dep_nodes groups) completed_groups

/-! ## Executor state
(`executor.py`, class `PhaseExecutor`)

`results` and `completed_groups` are the instance attributes of
`PhaseExecutor`; `calls` records every actual handler invocation (by
task id, in order), `validations_run` records every `_run_validation`
invocation, and `events` records the reporter callbacks — these three
are observation logs for the external collaborators. -/

/-- Reporter callback occurrences (`reporter.ProgressReporter`
methods) plus the `logger.warning` emitted when a group is skipped for
unmet dependencies. -/
inductive Event where
  | startOrchestration
  | startPhase (key : String)
  | completePhase (key : String) (success : Bool) (error : Option String)
  | startGroup (key : String)
  | completeGroup (key : String) (success : Bool) (error : Option String)
  | startTask (id : String)
  | completeTask (id : String) (success : Bool)
  | startCheckpoint (key : String)
  | completeCheckpoint (key : String) (passed : Bool)
  | completeOrchestration
  | warnSkipGroup (key : String)
  deriving DecidableEq

/-- Mutable state of one `PhaseExecutor` instance together with the
observation logs of its external collaborators. -/
structure ExecState where
  results : List (String × TaskResult) := []
  completed_groups : List String := []
  calls : List String := []
  validations_run : List ValidationCheck := []
  events : List Event := []
  deriving DecidableEq

/-- Appends a reporter event to the log. -/
def push (e : Event) (st : ExecState) : ExecState :=
  { st with events := st.events ++ [e] }

/-- Number of handler invocations made so far for the task with the
given id. -/
def countCalls (id : String) (st : ExecState) : Nat :=
  st.calls.count id

/-- The keys of `HANDLER_REGISTRY` (`handlers/__init__.py`):
`get_handler` raises `ValueError` for any other task type. -/
def HANDLER_REGISTRY_keys : List String :=
  ["config_edit", "test_generation", "file_generation", "manual"]

/-- Execution context: the constructor arguments of `PhaseExecutor`
plus the behaviour of the external collaborators. -/
structure ExecCtx where
  config : OrchestratorConfig
  dry_run : Bool := false
  parallel : Bool := true
  verbose : Bool := false
  /-- Behaviour of `handler.execute(task, project_root, verbose)` on
  its n-th invocation for a given task: `.ok r` is a returned
  `TaskResult`, `.error msg` a raised exception with message `msg`. -/
  env : Task → Nat → Except String TaskResult
  /-- Outcome of `_check_coverage` (an external `npm` subprocess) for a
  given validation check. -/
  venv : ValidationCheck → Bool
  /-- Iteration order of `next(iter(remaining))` on the resolver's
  remaining set (unspecified in CPython). -/
  pick : List String → String

/-- Renders a `TaskResult.error` the way the f-string
`f"Task {task.id} failed: {result.error}"` renders it (Python prints
`None` for an absent error). -/
def errStr : Option String → String
  | none => "None"
  | some s => s

/-! ## Task runner
(`executor.py`, `PhaseExecutor._execute_task` and its `@retry`
decorator; `handlers/__init__.py`, `get_handler`) -/

/-- Body of `_execute_task` (the function tenacity wraps): in dry-run
mode, a synthetic success; otherwise `get_handler(task.type)` (raising
`ValueError` on unknown types), then one handler call, with every
exception caught and converted to a failed `TaskResult`.  Each branch
returns with `.ok`; no exception escapes the body, which is why the
result type's `.error` constructor is never produced. -/
def execute_task_body (ctx : ExecCtx) (task : Task) (st : ExecState) :
    Except String TaskResult × ExecState :=
  if ctx.dry_run then
    (Except.ok { task_id := task.id, success := true,
                 message := "[DRY RUN] Would execute: " ++ task.name }, st)
  else
    if HANDLER_REGISTRY_keys.contains task.type then
      let n := countCalls task.id st + 1
      let st2 := { st with calls := st.calls ++ [task.id] }
      match ctx.env task n with
      | Except.ok r => (Except.ok r, st2)
      | Except.error e =>
        (Except.ok { task_id := task.id, success := false, error := some e }, st2)
    else
      (Except.ok { task_id := task.id, success := false,
                   error := some ("Unknown task type: " ++ task.type) }, st)

/-- The tenacity `retry(stop=stop_after_attempt(3), ...)` combinator:
invokes the wrapped function up to `fuel` times total, retrying only
when it raises; after the final attempt a `RetryError` wrapping the
last exception propagates.  Waits between attempts do not change any
modelled state and are not represented. -/
def retry_call : Nat → (ExecState → Except String TaskResult × ExecState) →
    ExecState → Except String TaskResult × ExecState
  | 0, _, st => (Except.error "RetryError", st)
  | n + 1, f, st =>
    match f st with
    | (Except.ok r, st2) => (Except.ok r, st2)
    | (Except.error e, st2) =>
      if n = 0 then (Except.error ("RetryError: " ++ e), st2)
      else retry_call n f st2

/-- `PhaseExecutor._execute_task`: the retry-decorated task runner. -/
def execute_task (ctx : ExecCtx) (task : Task) (st : ExecState) :
    Except String TaskResult × ExecState :=
  retry_call 3 (execute_task_body ctx task) st

/-! ## Group runner
(`executor.py`, `PhaseExecutor._run_tasks_sequential`,
`PhaseExecutor._run_tasks_parallel`, `PhaseExecutor._run_group`) -/

/-- `PhaseExecutor._run_tasks_sequential`: tasks strictly in order;
after each, the result is stored; a failed result under fail-fast
raises `RuntimeError` immediately.  An exception escaping
`_execute_task` would propagate (second match arm); it never occurs. -/
def run_tasks_sequential (ctx : ExecCtx) : List Task → ExecState →
    ExecState × Option String
  | [], st => (st, none)
  | task :: rest, st =>
    let st := push (Event.startTask task.id) st
    match execute_task ctx task st with
    | (Except.ok r, st2) =>
      let st3 := { st2 with results := dinsert task.id r st2.results }
      let st4 := push (Event.completeTask task.id r.success) st3
      if !r.success && ctx.config.orchestrator.fail_fast then
        (st4, some ("Task " ++ task.id ++ " failed: " ++ errStr r.error))
      else
        run_tasks_sequential ctx rest st4
    | (Except.error e, st2) => (st2, some e)

/-- Observable effect of `asyncio.gather` over the
`run_with_semaphore` coroutines, under the event-loop schedule in
which tasks complete in dispatch order: every task runs and stores its
result (`return_exceptions=True` also converts a raised exception into
a collected failure); the failure count is accumulated for the
post-gather fail-fast check.  The semaphore bound constrains which
interleavings are admissible, not which tasks run, and is modelled by
the `ParStep` system below. -/
def run_tasks_parallel_loop (ctx : ExecCtx) : List Task → ExecState → Nat →
    ExecState × Nat
  | [], st, failures => (st, failures)
  | task :: rest, st, failures =>
    let st := push (Event.startTask task.id) st
    match execute_task ctx task st with
    | (Except.ok r, st2) =>
      let st3 := { st2 with results := dinsert task.id r st2.results }
      let st4 := push (Event.completeTask task.id r.success) st3
      run_tasks_parallel_loop ctx rest st4 (if r.success then failures else failures + 1)
    | (Except.error _, st2) =>
      run_tasks_parallel_loop ctx rest st2 (failures + 1)

/-- `PhaseExecutor._run_tasks_parallel`: gather all tasks, then — and
only then — evaluate the collected failures against fail-fast. -/
def run_tasks_parallel (ctx : ExecCtx) (tasks : List Task) (max_parallel : Nat)
    (st : ExecState) : ExecState × Option String :=
  let r := run_tasks_parallel_loop ctx tasks st 0
  if r.2 > 0 && ctx.config.orchestrator.fail_fast then
    (r.1, some (toString r.2 ++ " tasks failed in parallel execution"))
  else
    (r.1, none)

/-- `PhaseExecutor._run_group`: parallel dispatch only when the group
asks for it and the executor-wide parallel flag allows it. -/
def run_group (ctx : ExecCtx) (group : Group) (st : ExecState) :
    ExecState × Option String :=
  if group.execution == "parallel" && ctx.parallel then
    run_tasks_parallel ctx group.tasks group.max_parallel st
  else
    run_tasks_sequential ctx group.tasks st

/-! ## Phase runner
(`executor.py`, `PhaseExecutor._run_phase`,
`PhaseExecutor._dependencies_met`) -/

/-- `PhaseExecutor._dependencies_met`: every declared dependency is in
`self.completed_groups`. -/
def dependencies_met (depends_on : List String) (st : ExecState) : Bool :=
  depends_on.all fun dep => st.completed_groups.contains dep

/-- Group selection at the top of `_run_phase`: the single filtered
group when the filter is truthy (nonempty) and `group_<filter>` is a
key of the phase's groups, otherwise all groups. -/
def groups_to_run (phase : Phase) (group_filter : Option String) :
    List (String × Group) :=
  match group_filter with
  | none => phase.groups
  | some f =>
    if f ≠ "" then
      match dget ("group_" ++ f) phase.groups with
      | some g => [("group_" ++ f, g)]
      | none => phase.groups
    else phase.groups

/-- Body of the `for group_key in group_order:` loop of `_run_phase`
for a single group key: skip with a warning when dependencies are
unmet; otherwise run the group, add it to `completed_groups` on
success, and under fail-fast re-raise its failure.  A key absent from
`groups_to_run` would raise `KeyError` (unreachable from the resolver
with an admissible `pick`). -/
def run_phase_step (ctx : ExecCtx) (gtr : List (String × Group))
    (group_key : String) (st : ExecState) : ExecState × Option String :=
  match dget group_key gtr with
  | none => (st, some ("KeyError: " ++ group_key))
  | some group =>
    if dependencies_met group.depends_on st then
      let st := push (Event.startGroup group_key) st
      match run_group ctx group st with
      | (st2, none) =>
        let st3 := { st2 with completed_groups := sadd group_key st2.completed_groups }
        (push (Event.completeGroup group_key true none) st3, none)
      | (st2, some e) =>
        let st3 := push (Event.completeGroup group_key false (some e)) st2
        if ctx.config.orchestrator.fail_fast then (st3, some e) else (st3, none)
    else
      (push (Event.warnSkipGroup group_key) st, none)

/-- The `for group_key in group_order:` loop of `_run_phase`. -/
def run_phase_loop (ctx : ExecCtx) (gtr : List (String × Group)) :
    List String → ExecState → ExecState × Option String
  | [], st => (st, none)
  | group_key :: rest, st =>
    match run_phase_step ctx gtr group_key st with
    | (st2, none) => run_phase_loop ctx gtr rest st2
    | (st2, some e) => (st2, some e)

/-- `PhaseExecutor._run_phase`: select the groups, resolve their order
against the `completed_groups` set as of entry, and run them. -/
def run_phase_inner (ctx : ExecCtx) (phase : Phase)
    (group_filter : Option String) (st : ExecState) : ExecState × Option String :=
  let gtr := groups_to_run phase group_filter
  let order := resolve_group_order ctx.pick gtr st.completed_groups
  run_phase_loop ctx gtr order st

/-! ## Checkpoint validator
(`executor.py`, `PhaseExecutor._run_checkpoint`,
`PhaseExecutor._run_validation`, `_check_coverage`, `_check_ci_status`,
`_check_deployment_health`) -/

/-- `PhaseExecutor._run_validation`: dispatch on the check kind.
`coverage_threshold` consults the external subprocess outcome
(`ctx.venv`); `ci_passing` and `deployment_working` are stubs
returning `True` in the source; any other kind falls through to
`return True`. -/
def run_validation (ctx : ExecCtx) (v : ValidationCheck) : Bool :=
  if v.type == "coverage_threshold" then ctx.venv v
  else if v.type == "ci_passing" then true
  else if v.type == "deployment_working" then true
  else true

/-- The `for validation in checkpoint.validations:` loop of
`_run_checkpoint`: every check is invoked (recorded in
`validations_run`); `all_passed` is demoted on each failure and never
short-circuits the loop. -/
def run_checkpoint_loop (ctx : ExecCtx) : List ValidationCheck → Bool →
    ExecState → Bool × ExecState
  | [], all_passed, st => (all_passed, st)
  | v :: rest, all_passed, st =>
    let st2 := { st with validations_run := st.validations_run ++ [v] }
    run_checkpoint_loop ctx rest (all_passed && run_validation ctx v) st2

/-- `PhaseExecutor._run_checkpoint` for a checkpoint already looked up
by its key (callers guard membership before calling, so the Python
`self.config.checkpoints[checkpoint_key]` lookup cannot fail). -/
def run_checkpoint (ctx : ExecCtx) (checkpoint_key : String) (cp : Checkpoint)
    (st : ExecState) : Bool × ExecState :=
  let st := push (Event.startCheckpoint checkpoint_key) st
  let r := run_checkpoint_loop ctx cp.validations true st
  (r.1, push (Event.completeCheckpoint checkpoint_key r.1) r.2)

/-! ## Orchestration driver
(`executor.py`, `PhaseExecutor.run_all_phases`,
`PhaseExecutor.run_phase`) -/

/-- The `for phase_key in phase_order:` loop of `run_all_phases`: run
the phase; on success, run the checkpoint keyed `after_<phase_key>`
when declared, discarding its boolean result; on a raised phase
failure, re-raise only under fail-fast. -/
def run_all_loop (ctx : ExecCtx) : List String → ExecState →
    ExecState × Option String
  | [], st => (st, none)
  | phase_key :: rest, st =>
    match dget phase_key ctx.config.phases with
    | none => (st, some ("KeyError: " ++ phase_key))
    | some phase =>
      let st := push (Event.startPhase phase_key) st
      match run_phase_inner ctx phase none st with
      | (st2, none) =>
        let st3 := push (Event.completePhase phase_key true none) st2
        let ck := "after_" ++ phase_key
        let st4 :=
          match dget ck ctx.config.checkpoints with
          | some cp => (run_checkpoint ctx ck cp st3).2
          | none => st3
        run_all_loop ctx rest st4
      | (st2, some e) =>
        let st3 := push (Event.completePhase phase_key false (some e)) st2
        if ctx.config.orchestrator.fail_fast then (st3, some e)
        else run_all_loop ctx rest st3

/-- `PhaseExecutor.run_all_phases`. -/
def run_all_phases (ctx : ExecCtx) (st : ExecState) : ExecState × Option String :=
  let st := push Event.startOrchestration st
  let order := resolve_phase_order ctx.pick ctx.config
  match run_all_loop ctx order st with
  | (st2, none) => (push Event.completeOrchestration st2, none)
  | (st2, some e) => (st2, some e)

/-- `PhaseExecutor.run_phase` (the public single-phase entry point,
`runOne` of the specification): a missing phase raises `ValueError`;
a failure from `_run_phase` is re-reported and always re-raised. -/
def run_phase_one (ctx : ExecCtx) (phase_num : Nat) (group_filter : Option String)
    (st : ExecState) : ExecState × Option String :=
  let phase_key := "phase_" ++ toString phase_num
  match dget phase_key ctx.config.phases with
  | none => (st, some ("Phase " ++ toString phase_num ++ " not found"))
  | some phase =>
    let st := push (Event.startPhase phase_key) st
    match run_phase_inner ctx phase group_filter st with
    | (st2, none) => (push (Event.completePhase phase_key true none) st2, none)
    | (st2, some e) => (push (Event.completePhase phase_key false (some e)) st2, some e)

/-! ## Interleaving semantics of `_run_tasks_parallel`

`asyncio.gather` creates one `run_with_semaphore` coroutine per task;
a coroutine becomes in-flight by acquiring the
`asyncio.Semaphore(max_parallel)` and leaves the in-flight set when
its task completes and its result is recorded.  The transition system
below ranges over every admissible event-loop interleaving: `start`
admits any blocked coroutine when a semaphore slot is free, `finish`
completes any in-flight one.  A task's handler invocation and result
recording are applied atomically at its `finish` transition; this
preserves the in-flight census (`running`) and the per-task results,
which are what the concurrency claims observe.  No transition aborts
or cancels: failures are only counted and compared against fail-fast
after `gather` returns, i.e. outside this system. -/

/-- State effect of one task completing: its handler call and result
recording (the body of `run_with_semaphore` minus the reporter's
`start_task`, which fires at the `start` transition). -/
def finish_effect (ctx : ExecCtx) (task : Task) (st : ExecState) : ExecState :=
  match execute_task ctx task st with
  | (Except.ok r, st2) =>
    push (Event.completeTask task.id r.success)
      { st2 with results := dinsert task.id r st2.results }
  | (Except.error _, st2) => st2

/-- A configuration of the gathered coroutines: ones still blocked on
the semaphore, ones in flight, and the shared executor state. -/
structure ParState where
  waiting : List Task
  running : List Task
  exec : ExecState

/-- One admissible event-loop transition of the semaphore-bounded
gather. -/
inductive ParStep (ctx : ExecCtx) (maxp : Nat) : ParState → ParState → Prop
  | start (t : Task) (w1 w2 : List Task) (s : ParState)
      (hw : s.waiting = w1 ++ t :: w2)
      (hcap : s.running.length < maxp) :
      ParStep ctx maxp s
        { waiting := w1 ++ w2, running := s.running ++ [t],
          exec := push (Event.startTask t.id) s.exec }
  | finish (t : Task) (r1 r2 : List Task) (s : ParState)
      (hr : s.running = r1 ++ t :: r2) :
      ParStep ctx maxp s
        { waiting := s.waiting, running := r1 ++ r2,
          exec := finish_effect ctx t s.exec }

/-- Initial configuration: all coroutines created, none yet holding a
semaphore slot. -/
def par_init (tasks : List Task) (st : ExecState) : ParState :=
  { waiting := tasks, running := [], exec := st }

/-- Configurations reachable by the event loop from the initial one. -/
def ParReach (ctx : ExecCtx) (maxp : Nat) (tasks : List Task) (st : ExecState)
    (s : ParState) : Prop :=
  Relation.ReflTransGen (ParStep ctx maxp) (par_init tasks st) s

/-- A configuration from which the event loop can make no further
transition (i.e. `gather` has returned, or is deadlocked). -/
def ParTerminal (ctx : ExecCtx) (maxp : Nat) (s : ParState) : Prop :=
  ∀ s', ¬ ParStep ctx maxp s s'

/-! ## Statement-level definitions -/

/-- A linear order `l` respects the dependencies `deps` modulo an
`alreadyCompleted` set when every declared dependency of the node at
any position is either already completed or occurs strictly earlier in
`l`. -/
def deps_respected (deps : String → List String) (completed : List String)
    (l : List String) : Prop :=
  ∀ (i : Nat) (h : i < l.length), ∀ d ∈ deps l[i], d ∈ completed ∨ d ∈ l.take i

instance deps_respected_decidable (deps : String → List String)
    (completed : List String) (l : List String) :
    Decidable (deps_respected deps completed l) := by
  unfold deps_respected; infer_instance

/-- A set-iteration choice function is admissible when it returns a
member of its (nonempty) argument, as `next(iter(s))` does for every
CPython set `s`. -/
def admissible_pick (pick : List String → String) : Prop :=
  ∀ l, l ≠ [] → pick l ∈ l

/-- One admissible set-iteration order: first element in insertion
order. -/
def pickHead : List String → String
  | [] => ""
  | x :: _ => x

/-- Another admissible set-iteration order: last element in insertion
order. -/
def pickLast : List String → String
  | [] => ""
  | [x] => x
  | _ :: y :: rest => pickLast (y :: rest)

/-! ## Concrete instances used by witnesses and counterexamples -/

/-- A two-phase configuration with a linear phase dependency. -/
def cfg_lin : OrchestratorConfig :=
  { orchestrator := {},
    phases := [("phase_1", { name := "P1", groups := [] }),
               ("phase_2", { name := "P2", depends_on := ["phase_1"], groups := [] })],
    checkpoints := [] }

/-- Two groups where the second depends on the first and on an
already-completed group outside the set. -/
def groups_lin : List (String × Group) :=
  [("group_a", { name := "A", tasks := [] }),
   ("group_b", { name := "B", depends_on := ["group_a", "group_z"], tasks := [] })]

/-- Topological rank witnessing acyclicity of `cfg_lin`. -/
def rank_lin : String → Nat := fun s => if s = "phase_1" then 0 else 1

/-- Topological rank witnessing acyclicity of `groups_lin`. -/
def grank_lin : String → Nat := fun s => if s = "group_a" then 0 else 1

/-- An empty configuration with default settings. -/
def cfg_empty : OrchestratorConfig :=
  { orchestrator := {}, phases := [], checkpoints := [] }

/-- An empty configuration with fail-fast enabled. -/
def cfg_empty_ff : OrchestratorConfig :=
  { orchestrator := { fail_fast := true }, phases := [], checkpoints := [] }

/-- A task of a registered type. -/
def task_t1 : Task := { id := "t1", name := "T1", type := "manual" }

/-- A context whose handler raises a transient fault on its first two
invocations for any task and succeeds from the third on — the
premise of the retry claim. -/
def ctx_transient : ExecCtx :=
  { config := cfg_empty,
    env := fun t n =>
      if n ≤ 2 then Except.error "transient fault"
      else Except.ok { task_id := t.id, success := true },
    venv := fun _ => true,
    pick := pickHead }

/-- A context whose handler always raises. -/
def ctx_raise : ExecCtx :=
  { config := cfg_empty,
    env := fun _ _ => Except.error "boom",
    venv := fun _ => true,
    pick := pickHead }

/-- A task whose type has no registered handler. -/
def task_unknown : Task := { id := "u1", name := "U", type := "mystery" }

/-- A context with fail-fast on, whose handlers complete normally but
report logical failure for task `a` and success for task `b`. -/
def ctx_seqff : ExecCtx :=
  { config := cfg_empty_ff,
    env := fun t _ => Except.ok { task_id := t.id, success := t.id == "b" },
    venv := fun _ => true,
    pick := pickHead }

/-- First task of the C3 scenario: result is a failure. -/
def task_a : Task := { id := "a", name := "A", type := "manual" }

/-- Second task of the C3 scenario: would succeed, but must never
start. -/
def task_b : Task := { id := "b", name := "B", type := "manual" }

/-- A checkpoint with two validation checks: a coverage check (which
the external subprocess environment can fail) and a check of an
unknown kind. -/
def ck_two : Checkpoint :=
  { name := "CK",
    validations := [{ type := "coverage_threshold", target := some 80 },
                    { type := "quality_gate" }] }

/-- A context whose coverage subprocess reports failure for every
check. -/
def ctx_cov_fail : ExecCtx :=
  { config := cfg_empty,
    env := fun t _ => Except.ok { task_id := t.id, success := true },
    venv := fun _ => false,
    pick := pickHead }

/-- A checkpoint holding one failing coverage check. -/
def cp_fail : Checkpoint :=
  { name := "CP1",
    validations := [{ type := "coverage_threshold", target := some 80 }] }

/-- A group whose declared prerequisite names a group that never ran. -/
def group_w : Group :=
  { name := "W", depends_on := ["group_missing"], tasks := [] }

/-- A phase with two groups, used for the group-filter scenario. -/
def phase_g : Phase :=
  { name := "PG",
    groups := [("group_x", { name := "GX", tasks := [] }),
               ("group_y", { name := "GY", tasks := [] })] }

/-- Two trivial phases with a failing checkpoint declared after the
first, and fail-fast enabled: the C4 scenario. -/
def cfg_c4 : OrchestratorConfig :=
  { orchestrator := { fail_fast := true },
    phases := [("phase_1", { name := "P1", groups := [] }),
               ("phase_2", { name := "P2", groups := [] })],
    checkpoints := [("after_phase_1", cp_fail)] }

/-- Execution context of the C4 scenario: every handler succeeds, the
coverage subprocess fails, fail-fast is on. -/
def ctx_c4 : ExecCtx :=
  { config := cfg_c4,
    env := fun t _ => Except.ok { task_id := t.id, success := true },
    venv := fun _ => false,
    pick := pickHead }

/-- First task of the parallel scenario; its handler reports logical
failure. -/
def task_p1 : Task := { id := "p1", name := "P1", type := "manual" }

/-- Second task of the parallel scenario. -/
def task_p2 : Task := { id := "p2", name := "P2", type := "manual" }

/-- Third task of the parallel scenario. -/
def task_p3 : Task := { id := "p3", name := "P3", type := "manual" }

/-- Context of the parallel scenario: handlers complete normally,
`p1` reporting failure and the others success. -/
def ctx_c8 : ExecCtx :=
  { config := cfg_empty,
    env := fun t _ => Except.ok { task_id := t.id, success := !(t.id == "p1") },
    venv := fun _ => true,
    pick := pickHead }

/-- Interleaving of the parallel scenario with `maxParallel = 2`:
after `p1` and `p2` acquire the two slots. -/
def c8s1 : ParState :=
  { waiting := [task_p2, task_p3], running := [task_p1],
    exec := { events := [Event.startTask "p1"] } }

/-- Parallel scenario after `p2` also starts (both slots taken). -/
def c8s2 : ParState :=
  { waiting := [task_p3], running := [task_p1, task_p2],
    exec := { events := [Event.startTask "p1", Event.startTask "p2"] } }

/-- Parallel scenario after `p1` completes (with a failed result). -/
def c8s3 : ParState :=
  { waiting := [task_p3], running := [task_p2],
    exec := finish_effect ctx_c8 task_p1 c8s2.exec }

/-- Parallel scenario after `p3` starts into the freed slot. -/
def c8s4 : ParState :=
  { waiting := [], running := [task_p2, task_p3],
    exec := push (Event.startTask "p3") c8s3.exec }

/-- Parallel scenario after `p2` completes. -/
def c8s5 : ParState :=
  { waiting := [], running := [task_p3],
    exec := finish_effect ctx_c8 task_p2 c8s4.exec }

/-- Terminal state of the parallel scenario: all three tasks
completed. -/
def c8s6 : ParState :=
  { waiting := [], running := [],
    exec := finish_effect ctx_c8 task_p3 c8s5.exec }

/-! ## Basic lemmas about the task runner -/

theorem pickHead_admissible : admissible_pick pickHead := by
  intro l hl
  cases l with
  | nil => exact absurd rfl hl
  | cons x xs => exact List.mem_cons_self x xs

theorem pickLast_admissible : admissible_pick pickLast := by
  intro l hl
  induction l with
  | nil => exact absurd rfl hl
  | cons x xs ih =>
    cases xs with
    | nil => exact List.mem_cons_self x []
    | cons y ys =>
      have := ih (by simp)
      exact List.mem_cons_of_mem x this

theorem execute_task_body_spec (ctx : ExecCtx) (t : Task) (st : ExecState) :
    ∃ r, (execute_task_body ctx t st).1 = Except.ok r ∧
      ((execute_task_body ctx t st).2 = st ∨
       (execute_task_body ctx t st).2 = { st with calls := st.calls ++ [t.id] }) := by
  unfold execute_task_body
  split
  · exact ⟨_, rfl, Or.inl rfl⟩
  · split
    · dsimp only
      split
      · exact ⟨_, rfl, Or.inr rfl⟩
      · exact ⟨_, rfl, Or.inr rfl⟩
    · exact ⟨_, rfl, Or.inl rfl⟩

/-- The retry decorator is inert on `_execute_task`: the wrapped body
catches every exception and returns normally, so tenacity observes no
raise and makes exactly one call. -/
theorem execute_task_eq_body (ctx : ExecCtx) (t : Task) (st : ExecState) :
    execute_task ctx t st = execute_task_body ctx t st := by
  obtain ⟨r, h1, _⟩ := execute_task_body_spec ctx t st
  unfold execute_task retry_call
  rcases h : execute_task_body ctx t st with ⟨e, st2⟩
  rw [h] at h1
  simp only at h1
  subst h1
  simp

theorem execute_task_spec (ctx : ExecCtx) (t : Task) (st : ExecState) :
    ∃ r, (execute_task ctx t st).1 = Except.ok r ∧
      ((execute_task ctx t st).2 = st ∨
       (execute_task ctx t st).2 = { st with calls := st.calls ++ [t.id] }) := by
  rw [execute_task_eq_body]
  exact execute_task_body_spec ctx t st

/-! ## Resolver lemmas -/

theorem exists_min_rank (rank : String → Nat) :
    ∀ l : List String, l ≠ [] → ∃ p ∈ l, ∀ q ∈ l, rank p ≤ rank q
  | [], h => absurd rfl h
  | [x], _ => ⟨x, List.mem_singleton.2 rfl, by
      intro q hq
      rw [List.mem_singleton] at hq
      exact hq ▸ Nat.le_refl _⟩
  | x :: y :: rest, _ => by
    obtain ⟨p, hp, hmin⟩ := exists_min_rank rank (y :: rest) (by simp)
    by_cases hxp : rank x ≤ rank p
    · refine ⟨x, List.mem_cons_self x _, ?_⟩
      intro q hq
      rcases List.mem_cons.1 hq with h | h
      · exact h ▸ Nat.le_refl _
      · exact Nat.le_trans hxp (hmin q h)
    · refine ⟨p, List.mem_cons_of_mem x hp, ?_⟩
      intro q hq
      rcases List.mem_cons.1 hq with h | h
      · exact h ▸ Nat.le_of_lt (Nat.lt_of_not_le hxp)
      · exact hmin q h

theorem ready_nodes_mem (deps : String → List String) (completed : List String)
    (ordered remaining : List String) (x : String) :
    x ∈ ready_nodes deps completed ordered remaining ↔
      x ∈ remaining ∧ ∀ d ∈ deps x, d ∈ ordered ∨ d ∈ completed := by
  unfold ready_nodes
  rw [List.mem_filter]
  unfold node_ready
  constructor
  · rintro ⟨hx, hall⟩
    refine ⟨hx, ?_⟩
    rw [List.all_eq_true] at hall
    intro d hd
    have hor := hall d hd
    rw [Bool.or_eq_true] at hor
    rcases hor with h | h
    · exact Or.inl (List.elem_iff.1 h)
    · exact Or.inr (List.elem_iff.1 h)
  · rintro ⟨hx, hall⟩
    refine ⟨hx, ?_⟩
    rw [List.all_eq_true]
    intro d hd
    rw [Bool.or_eq_true]
    rcases hall d hd with h | h
    · exact Or.inl (List.elem_iff.2 h)
    · exact Or.inr (List.elem_iff.2 h)

theorem resolve_step_of_ready (pick : List String → String)
    (deps : String → List String) (completed ordered remaining : List String)
    (h : (ready_nodes deps completed ordered remaining).isEmpty = false) :
    resolve_step pick deps completed ordered remaining =
      (sortStrings (ready_nodes deps completed ordered remaining),
       remaining.filter fun q =>
         !(ready_nodes deps completed ordered remaining).contains q) := by
  unfold resolve_step
  dsimp only
  rw [h]
  simp

theorem resolve_loop_cons (pick : List String → String)
    (deps : String → List String) (completed : List String) (fuel : Nat)
    (ordered remaining : List String) (h : remaining.isEmpty = false) :
    resolve_loop pick deps completed (fuel + 1) ordered remaining =
      resolve_loop pick deps completed fuel
        (ordered ++ (resolve_step pick deps completed ordered remaining).1)
        (resolve_step pick deps completed ordered remaining).2 := by
  rw [resolve_loop, h]
  simp

theorem deps_respected_append (deps : String → List String)
    (completed ordered block : List String)
    (hgood : deps_respected deps completed ordered)
    (hblock : ∀ x ∈ block, ∀ d ∈ deps x, d ∈ ordered ∨ d ∈ completed) :
    deps_respected deps completed (ordered ++ block) := by
  intro i h d hd
  by_cases hi : i < ordered.length
  · rw [List.getElem_append_left hi] at hd
    rcases hgood i hi d hd with hc | ht
    · exact Or.inl hc
    · right
      rw [List.take_append_eq_append_take]
      exact List.mem_append.2 (Or.inl ht)
  · push_neg at hi
    have hib : i - ordered.length < block.length := by
      rw [List.length_append] at h
      omega
    rw [List.getElem_append_right hi] at hd
    have hxm : block[i - ordered.length] ∈ block := List.getElem_mem hib
    rcases hblock _ hxm d hd with ho | hc
    · right
      rw [List.take_append_eq_append_take, List.take_of_length_le hi]
      exact List.mem_append.2 (Or.inl ho)
    · exact Or.inl hc

/-- Master invariant of the resolver loop: under an acyclicity witness
(`rank`) and in-set-or-completed dependencies, the loop never hits the
fallback, so it (a) returns a permutation of `ordered ++ remaining`,
(b) respects all dependencies, and (c) does not depend on the
set-iteration order. -/
theorem resolve_loop_master (pick pick' : List String → String)
    (deps : String → List String) (completed keys : List String)
    (rank : String → Nat)
    (hdeps : ∀ p ∈ keys, ∀ d ∈ deps p, d ∈ keys ∨ d ∈ completed)
    (hrank : ∀ p ∈ keys, ∀ d ∈ deps p, d ∈ keys → rank d < rank p) :
    ∀ (fuel : Nat) (ordered remaining : List String),
      remaining.length ≤ fuel →
      remaining.Nodup →
      (∀ p ∈ remaining, p ∈ keys) →
      (∀ p ∈ remaining, p ∉ ordered) →
      (∀ p ∈ keys, p ∈ ordered ∨ p ∈ remaining) →
      deps_respected deps completed ordered →
      List.Perm (resolve_loop pick deps completed fuel ordered remaining)
          (ordered ++ remaining) ∧
        deps_respected deps completed
          (resolve_loop pick deps completed fuel ordered remaining) ∧
        resolve_loop pick' deps completed fuel ordered remaining =
          resolve_loop pick deps completed fuel ordered remaining := by
  intro fuel
  induction fuel with
  | zero =>
    intro ordered remaining hlen hnd hsub hdis hcov hgood
    have hrem : remaining = [] := List.eq_nil_of_length_eq_zero (Nat.le_zero.1 hlen)
    subst hrem
    refine ⟨?_, hgood, rfl⟩
    rw [List.append_nil]
    exact List.Perm.refl _
  | succ fuel ih =>
    intro ordered remaining hlen hnd hsub hdis hcov hgood
    by_cases hre : remaining.isEmpty = true
    · have hrem : remaining = [] := List.isEmpty_iff.1 hre
      subst hrem
      refine ⟨?_, hgood, rfl⟩
      rw [List.append_nil]
      exact List.Perm.refl _
    · have hre' : remaining.isEmpty = false := by
        cases h : remaining.isEmpty
        · rfl
        · exact absurd h hre
      have hnonnil : remaining ≠ [] := by
        intro h
        rw [h] at hre'
        simp at hre'
      obtain ⟨p, hpmem, hpmin⟩ := exists_min_rank rank remaining hnonnil
      have hpready : p ∈ ready_nodes deps completed ordered remaining := by
        rw [ready_nodes_mem]
        refine ⟨hpmem, ?_⟩
        intro d hd
        rcases hdeps p (hsub p hpmem) d hd with hk | hc
        · have hlt := hrank p (hsub p hpmem) d hd hk
          have hdnr : d ∉ remaining := by
            intro hdr
            have := hpmin d hdr
            omega
          exact Or.inl ((hcov d hk).resolve_right hdnr)
        · exact Or.inr hc
      have hreadyne : (ready_nodes deps completed ordered remaining).isEmpty = false := by
        cases hie : (ready_nodes deps completed ordered remaining).isEmpty
        · rfl
        · exact absurd (List.isEmpty_iff.1 hie) (List.ne_nil_of_mem hpready)
      have hreadyprop : ∀ x ∈ ready_nodes deps completed ordered remaining,
          ∀ d ∈ deps x, d ∈ ordered ∨ d ∈ completed := by
        intro x hx
        exact ((ready_nodes_mem deps completed ordered remaining x).1 hx).2
      have hreadysub : ∀ x ∈ ready_nodes deps completed ordered remaining,
          x ∈ remaining := by
        intro x hx
        exact ((ready_nodes_mem deps completed ordered remaining x).1 hx).1
      have hstep := resolve_step_of_ready pick deps completed ordered remaining hreadyne
      have hstep' := resolve_step_of_ready pick' deps completed ordered remaining hreadyne
      have hblockmem : ∀ x,
          x ∈ sortStrings (ready_nodes deps completed ordered remaining) ↔
            x ∈ ready_nodes deps completed ordered remaining := fun x =>
        (sortStrings_perm _).mem_iff
      have hrem'mem : ∀ x,
          x ∈ (remaining.filter fun q =>
              !(ready_nodes deps completed ordered remaining).contains q) ↔
            x ∈ remaining ∧ x ∉ ready_nodes deps completed ordered remaining := by
        intro x
        rw [List.mem_filter]
        constructor
        · rintro ⟨hx, hb⟩
          refine ⟨hx, ?_⟩
          intro hmem
          rw [Bool.not_eq_true'] at hb
          have hcont : (ready_nodes deps completed ordered remaining).contains x = true :=
            List.elem_iff.2 hmem
          rw [hcont] at hb
          simp at hb
        · rintro ⟨hx, hnm⟩
          refine ⟨hx, ?_⟩
          rw [Bool.not_eq_true']
          cases hc : (ready_nodes deps completed ordered remaining).contains x
          · rfl
          · exact absurd (List.elem_iff.1 hc) hnm
      -- the new remaining is strictly shorter
      have hlen' : (remaining.filter fun q =>
          !(ready_nodes deps completed ordered remaining).contains q).length ≤ fuel := by
        have hlt : (remaining.filter fun q =>
            !(ready_nodes deps completed ordered remaining).contains q).length <
              remaining.length := by
          refine List.length_filter_lt_length_iff_exists.2 ⟨p, hpmem, ?_⟩
          intro hcontra
          rw [Bool.not_eq_true'] at hcontra
          have hcont : (ready_nodes deps completed ordered remaining).contains p = true :=
            List.elem_iff.2 hpready
          rw [hcont] at hcontra
          simp at hcontra
        omega
      have hih := ih (ordered ++ sortStrings (ready_nodes deps completed ordered remaining))
        (remaining.filter fun q =>
          !(ready_nodes deps completed ordered remaining).contains q)
        hlen'
        (hnd.filter _)
        (by
          intro q hq
          exact hsub q ((hrem'mem q).1 hq).1)
        (by
          intro q hq
          obtain ⟨hqr, hqnr⟩ := (hrem'mem q).1 hq
          intro hmem
          rcases List.mem_append.1 hmem with h | h
          · exact hdis q hqr h
          · exact hqnr ((hblockmem q).1 h))
        (by
          intro q hq
          rcases hcov q hq with h | h
          · exact Or.inl (List.mem_append.2 (Or.inl h))
          · by_cases hqready : q ∈ ready_nodes deps completed ordered remaining
            · exact Or.inl (List.mem_append.2 (Or.inr ((hblockmem q).2 hqready)))
            · exact Or.inr ((hrem'mem q).2 ⟨h, hqready⟩))
        (deps_respected_append deps completed ordered _ hgood (by
          intro x hx
          exact hreadyprop x ((hblockmem x).1 hx)))
      obtain ⟨hperm, hgood', heq⟩ := hih
      have hsplit : List.Perm
          (ready_nodes deps completed ordered remaining ++
            (remaining.filter fun q =>
              !(ready_nodes deps completed ordered remaining).contains q))
          remaining := by
        have hpoint : ∀ x ∈ remaining,
            (ready_nodes deps completed ordered remaining).contains x =
              node_ready deps completed ordered x := by
          intro x hx
          cases hp : node_ready deps completed ordered x
          · cases hc : (ready_nodes deps completed ordered remaining).contains x
            · rfl
            · have hxm := List.elem_iff.1 hc
              unfold ready_nodes at hxm
              have hmf := (List.mem_filter.1 hxm).2
              rw [hp] at hmf
              simp at hmf
          · have hmem : x ∈ ready_nodes deps completed ordered remaining := by
              unfold ready_nodes
              exact List.mem_filter.2 ⟨hx, hp⟩
            exact List.elem_iff.2 hmem
        have hcongr : (remaining.filter fun q =>
            !(ready_nodes deps completed ordered remaining).contains q) =
            remaining.filter fun q => !node_ready deps completed ordered q :=
          List.filter_congr fun x hx => by rw [hpoint x hx]
        rw [hcongr]
        unfold ready_nodes
        exact List.filter_append_perm _ remaining
      refine ⟨?_, ?_, ?_⟩
      · rw [resolve_loop_cons pick deps completed fuel ordered remaining hre', hstep]
        refine hperm.trans ?_
        rw [List.append_assoc]
        refine List.Perm.append_left ordered ?_
        refine (List.Perm.append_right _ (sortStrings_perm _)).trans hsplit
      · rw [resolve_loop_cons pick deps completed fuel ordered remaining hre', hstep]
        exact hgood'
      · rw [resolve_loop_cons pick' deps completed fuel ordered remaining hre', hstep',
          resolve_loop_cons pick deps completed fuel ordered remaining hre', hstep]
        exact heq

/-- Specification of `resolve_order` on association lists with
duplicate-free keys, acyclic in-set dependencies witnessed by `rank`. -/
theorem resolve_order_spec (pick pick' : List String → String)
    (nodes : List (String × List String)) (completed : List String)
    (rank : String → Nat)
    (hdeps : ∀ p ∈ nodes.map Prod.fst, ∀ d ∈ depsOf nodes p,
      d ∈ nodes.map Prod.fst ∨ d ∈ completed)
    (hrank : ∀ p ∈ nodes.map Prod.fst, ∀ d ∈ depsOf nodes p,
      d ∈ nodes.map Prod.fst → rank d < rank p)
    (hnd : (nodes.map Prod.fst).Nodup) :
    List.Perm (resolve_order pick nodes completed) (nodes.map Prod.fst) ∧
      deps_respected (depsOf nodes) completed (resolve_order pick nodes completed) ∧
      resolve_order pick' nodes completed = resolve_order pick nodes completed := by
  have h := resolve_loop_master pick pick' (depsOf nodes) completed
    (nodes.map Prod.fst) rank hdeps hrank nodes.length [] (nodes.map Prod.fst)
    (by rw [List.length_map])
    hnd
    (fun p hp => hp)
    (fun p _ => List.not_mem_nil p)
    (fun p hp => Or.inr hp)
    (by intro i h; simp at h)
  obtain ⟨hperm, hgood, heq⟩ := h
  exact ⟨by simpa using hperm, hgood, heq⟩

/-! ## Claim C1 -/

/-- C1: for every input whose dependency graph is acyclic (witnessed
by a rank function decreasing along in-set dependency edges) and whose
declared dependencies all name nodes in the input set (for groups,
possibly members of the `alreadyCompleted` set instead), both
`_resolve_phase_order` and `_resolve_group_order` return a permutation
of the input node identifiers in which every node's declared
dependencies appear strictly earlier (or, for groups, are in the
already-completed set). -/
theorem c1_resolution_topological (pick : List String → String)
    (config : OrchestratorConfig) (groups : List (String × Group))
    (completed_groups : List String) (prank grank : String → Nat)
    (hpnd : ((phase_dep_nodes config).map Prod.fst).Nodup)
    (hpdeps : ∀ p ∈ (phase_dep_nodes config).map Prod.fst,
      ∀ d ∈ depsOf (phase_dep_nodes config) p,
        d ∈ (phase_dep_nodes config).map Prod.fst)
    (hprank : ∀ p ∈ (phase_dep_nodes config).map Prod.fst,
      ∀ d ∈ depsOf (phase_dep_nodes config) p, prank d < prank p)
    (hgnd : ((group_dep_nodes groups).map Prod.fst).Nodup)
    (hgdeps : ∀ p ∈ (group_dep_nodes groups).map Prod.fst,
      ∀ d ∈ depsOf (group_dep_nodes groups) p,
        d ∈ (group_dep_nodes groups).map Prod.fst ∨ d ∈ completed_groups)
    (hgrank : ∀ p ∈ (group_dep_nodes groups).map Prod.fst,
      ∀ d ∈ depsOf (group_dep_nodes groups) p,
        d ∈ (group_dep_nodes groups).map Prod.fst → grank d < grank p) :
    (List.Perm (resolve_phase_order pick config)
        ((phase_dep_nodes config).map Prod.fst) ∧
      deps_respected (depsOf (phase_dep_nodes config)) []
        (resolve_phase_order pick config)) ∧
    (List.Perm (resolve_group_order pick groups completed_groups)
        ((group_dep_nodes groups).map Prod.fst) ∧
      deps_respected (depsOf (group_dep_nodes groups)) completed_groups
        (resolve_group_order pick groups completed_groups)) := by
  constructor
  · have h := resolve_order_spec pick pick (phase_dep_nodes config) [] prank
      (fun p hp d hd => Or.inl (hpdeps p hp d hd))
      (fun p hp d hd _ => hprank p hp d hd)
      hpnd
    exact ⟨h.1, h.2.1⟩
  · have h := resolve_order_spec pick pick (group_dep_nodes groups)
      completed_groups grank hgdeps hgrank hgnd
    exact ⟨h.1, h.2.1⟩

/-- Witness for C1 at a concrete two-phase configuration and a
concrete two-group set with one already-completed external
dependency. -/
theorem c1_resolution_topological_witness :
    (List.Perm (resolve_phase_order pickHead cfg_lin)
        ((phase_dep_nodes cfg_lin).map Prod.fst) ∧
      deps_respected (depsOf (phase_dep_nodes cfg_lin)) []
        (resolve_phase_order pickHead cfg_lin)) ∧
    (List.Perm (resolve_group_order pickHead groups_lin ["group_z"])
        ((group_dep_nodes groups_lin).map Prod.fst) ∧
      deps_respected (depsOf (group_dep_nodes groups_lin)) ["group_z"]
        (resolve_group_order pickHead groups_lin ["group_z"])) :=
  c1_resolution_topological pickHead cfg_lin groups_lin ["group_z"] rank_lin grank_lin
    (by decide) (by decide) (by decide) (by decide) (by decide) (by decide)

/-! ## Claim C5 -/

/-- C5 counterexample: on the two-node cycle, the set-iteration order
that yields `b` first (an admissible behaviour of
`next(iter(remaining))` on a CPython set) makes the fallback select
`b`, not the lowest identifier `a`, and the two admissible iteration
orders produce different outputs — so the resolver does not guarantee
selection of the lowest identifier, and its output on a cyclic input
is not a function of the input alone. -/
theorem c5_counterexample :
    resolve_order pickLast [("a", ["b"]), ("b", ["a"])] [] = ["b", "a"] ∧
    resolve_order pickHead [("a", ["b"]), ("b", ["a"])] [] = ["a", "b"] ∧
    resolve_order pickLast [("a", ["b"]), ("b", ["a"])] [] ≠
      resolve_order pickHead [("a", ["b"]), ("b", ["a"])] [] := by
  decide

/-- C5 (amended): ties among simultaneously-ready nodes are broken in
ascending code-point order (each appended block is sorted); when no
node is ready the resolver forces progress with an arbitrary member of
the remaining set (whatever `next(iter(...))` yields — not necessarily
the lowest identifier); and on inputs where a ready node always exists
(acyclic graphs whose dependencies stay in the set or the completed
set) the output does not depend on the set-iteration order at all, so
resolution there is deterministic across runs. -/
theorem c5_amended_resolution_determinism
    (pickA pickB : List String → String) (nodes : List (String × List String))
    (completed : List String) (rank : String → Nat)
    (hadm : admissible_pick pickA)
    (hnd : (nodes.map Prod.fst).Nodup)
    (hdeps : ∀ p ∈ nodes.map Prod.fst, ∀ d ∈ depsOf nodes p,
      d ∈ nodes.map Prod.fst ∨ d ∈ completed)
    (hrank : ∀ p ∈ nodes.map Prod.fst, ∀ d ∈ depsOf nodes p,
      d ∈ nodes.map Prod.fst → rank d < rank p) :
    (∀ (deps : String → List String) (ordered remaining : List String),
      (resolve_step pickA deps completed ordered remaining).1.Pairwise SLe) ∧
    (∀ (deps : String → List String) (ordered remaining : List String),
      remaining ≠ [] →
      (ready_nodes deps completed ordered remaining).isEmpty = true →
      (resolve_step pickA deps completed ordered remaining).1 = [pickA remaining] ∧
        pickA remaining ∈ remaining) ∧
    resolve_order pickA nodes completed = resolve_order pickB nodes completed := by
  refine ⟨?_, ?_, ?_⟩
  · intro deps ordered remaining
    exact sortStrings_sorted _
  · intro deps ordered remaining hne hempty
    constructor
    · unfold resolve_step
      dsimp only
      rw [hempty]
      simp [sortStrings]
    · exact hadm remaining hne
  · exact (resolve_order_spec pickB pickA nodes completed rank hdeps hrank hnd).2.2

/-- Witness for C5 (amended) at concrete inputs: the step block is
sorted on a concrete unready state, the fallback is the picked member
on the two-node cycle, and the two iteration orders agree on the
acyclic `cfg_lin` phase graph. -/
theorem c5_amended_resolution_determinism_witness :
    ((resolve_step pickHead (depsOf (phase_dep_nodes cfg_lin)) [] []
        ["phase_2", "phase_1"]).1.Pairwise SLe) ∧
    ((resolve_step pickHead (depsOf [("a", ["b"]), ("b", ["a"])]) [] []
        ["a", "b"]).1 = [pickHead ["a", "b"]] ∧ pickHead ["a", "b"] ∈ ["a", "b"]) ∧
    resolve_order pickHead (phase_dep_nodes cfg_lin) [] =
      resolve_order pickLast (phase_dep_nodes cfg_lin) [] := by
  have h := c5_amended_resolution_determinism pickHead pickLast
    (phase_dep_nodes cfg_lin) [] rank_lin pickHead_admissible
    (by decide) (by decide) (by decide)
  exact ⟨h.1 (depsOf (phase_dep_nodes cfg_lin)) [] ["phase_2", "phase_1"],
    h.2.1 (depsOf [("a", ["b"]), ("b", ["a"])]) [] ["a", "b"] (by decide) (by decide),
    h.2.2⟩

/-! ## Dictionary and state lemmas -/

theorem dget_dinsert_self {α : Type} (k : String) (v : α) :
    ∀ l : List (String × α), dget k (dinsert k v l) = some v
  | [] => by simp [dget, dinsert]
  | (k', v') :: rest => by
    by_cases h : k' = k
    · simp [dget, dinsert, h]
    · simp only [dinsert, if_neg h, dget]
      exact dget_dinsert_self k v rest

theorem dget_dinsert_ne {α : Type} (k k' : String) (v : α) (hne : k ≠ k') :
    ∀ l : List (String × α), dget k (dinsert k' v l) = dget k l
  | [] => by
    simp only [dinsert, dget]
    rw [if_neg (fun h => hne h.symm)]
  | (k'', v'') :: rest => by
    by_cases h : k'' = k'
    · subst h
      simp only [dinsert, if_pos rfl, dget]
      rw [if_neg (fun hc => hne hc.symm), if_neg (fun hc => hne hc.symm)]
    · simp only [dinsert, if_neg h, dget]
      by_cases h2 : k'' = k
      · rw [if_pos h2, if_pos h2]
      · rw [if_neg h2, if_neg h2]
        exact dget_dinsert_ne k k' v hne rest

theorem dhas_dinsert_self {α : Type} (k : String) (v : α) (l : List (String × α)) :
    dhas k (dinsert k v l) = true := by
  unfold dhas
  rw [dget_dinsert_self]
  rfl

theorem dhas_dinsert_mono {α : Type} (k k' : String) (v : α) (l : List (String × α))
    (h : dhas k l = true) : dhas k (dinsert k' v l) = true := by
  by_cases he : k = k'
  · subst he
    exact dhas_dinsert_self k v l
  · unfold dhas at h ⊢
    rw [dget_dinsert_ne k k' v he]
    exact h

theorem execute_task_results (ctx : ExecCtx) (t : Task) (st : ExecState) :
    (execute_task ctx t st).2.results = st.results := by
  obtain ⟨r, _, h⟩ := execute_task_spec ctx t st
  rcases h with h | h <;> rw [h]

theorem execute_task_completed_groups (ctx : ExecCtx) (t : Task) (st : ExecState) :
    (execute_task ctx t st).2.completed_groups = st.completed_groups := by
  obtain ⟨r, _, h⟩ := execute_task_spec ctx t st
  rcases h with h | h <;> rw [h]

theorem execute_task_count_ne (ctx : ExecCtx) (t : Task) (st : ExecState)
    (k : String) (hne : k ≠ t.id) :
    (execute_task ctx t st).2.calls.count k = st.calls.count k := by
  obtain ⟨r, _, h⟩ := execute_task_spec ctx t st
  rcases h with h | h <;> rw [h]
  simp [List.count_append, List.count_cons, List.count_nil]
  intro hc
  exact absurd hc.symm hne

/-! ## Claim C2 -/

/-- C2 evaluated at its own premise: `ctx_transient`'s handler raises
on invocations 1 and 2 and succeeds from invocation 3 on, yet
`_execute_task` returns a failed `TaskResult` carrying the fault
message after exactly one handler invocation (`calls = [t1]`).  The
`@retry` decorator never observes an exception because the body's
`try/except` catches it first, so no retry and no backoff ever
happen, contradicting the claimed three-attempt retry with eventual
success. -/
theorem c2_retry_is_dead_code :
    ctx_transient.env task_t1 3 =
      Except.ok { task_id := "t1", success := true } ∧
    execute_task ctx_transient task_t1 {} =
      (Except.ok { task_id := "t1", success := false,
                   error := some "transient fault" },
       { calls := ["t1"] }) := by
  exact ⟨rfl, rfl⟩

/-! ## Claim C6 -/

/-- C6: `_execute_task` always returns exactly one `TaskResult` and
never lets a fault escape: whatever the handler environment does, the
outcome is `.ok`; outside dry-run, an unregistered task type yields a
failed result whose `error` is the `ValueError` message
`Unknown task type: <type>`, and a handler that raises yields a failed
result whose `error` is the fault's message. -/
theorem c6_faults_never_escape (ctx : ExecCtx) (t : Task) (st : ExecState) :
    (∃ r st2, execute_task ctx t st = (Except.ok r, st2)) ∧
    (ctx.dry_run = false → HANDLER_REGISTRY_keys.contains t.type = false →
      ∃ st2, execute_task ctx t st =
        (Except.ok { task_id := t.id, success := false,
                     error := some ("Unknown task type: " ++ t.type) }, st2)) ∧
    (∀ e, ctx.dry_run = false → HANDLER_REGISTRY_keys.contains t.type = true →
      ctx.env t (countCalls t.id st + 1) = Except.error e →
      ∃ st2, execute_task ctx t st =
        (Except.ok { task_id := t.id, success := false, error := some e }, st2)) := by
  refine ⟨?_, ?_, ?_⟩
  · obtain ⟨r, hok, _⟩ := execute_task_spec ctx t st
    rcases hE : execute_task ctx t st with ⟨er, st2⟩
    rw [hE] at hok
    simp only at hok
    exact ⟨r, st2, by rw [hok]⟩
  · intro hdry hreg
    rw [execute_task_eq_body]
    unfold execute_task_body
    rw [hdry, hreg]
    exact ⟨st, rfl⟩
  · intro e hdry hreg henv
    rw [execute_task_eq_body]
    unfold execute_task_body
    rw [hdry, hreg]
    dsimp only
    rw [henv]
    exact ⟨_, rfl⟩

/-- Witness for C6: under `ctx_raise` (dry-run off), the unregistered
task type yields the `UnknownTaskType` failure and the registered task
whose handler raises yields a failure carrying the fault message. -/
theorem c6_faults_never_escape_witness :
    (∃ st2, execute_task ctx_raise task_unknown {} =
      (Except.ok { task_id := "u1", success := false,
                   error := some "Unknown task type: mystery" }, st2)) ∧
    (∃ st2, execute_task ctx_raise task_t1 {} =
      (Except.ok { task_id := "t1", success := false,
                   error := some "boom" }, st2)) :=
  ⟨(c6_faults_never_escape ctx_raise task_unknown {}).2.1 rfl rfl,
   (c6_faults_never_escape ctx_raise task_t1 {}).2.2 "boom" rfl rfl rfl⟩

/-! ## Claim C3 -/

/-- C3: in a sequential group run with fail-fast enabled, when the
first task's execution produces a failed result, the runner raises
`RuntimeError` with that task's id and error, records the first task's
result, makes no entry for the second task, and never invokes the
second task's handler; no task after the failing one is started. -/
theorem c3_sequential_fail_fast (ctx : ExecCtx) (t1 t2 : Task) (rest : List Task)
    (st : ExecState) (r1 : TaskResult)
    (hff : ctx.config.orchestrator.fail_fast = true)
    (hexec : (execute_task ctx t1 (push (Event.startTask t1.id) st)).1 =
      Except.ok r1)
    (hfail : r1.success = false)
    (hne : t2.id ≠ t1.id)
    (hfresh : dget t2.id st.results = none) :
    (run_tasks_sequential ctx (t1 :: t2 :: rest) st).2 =
      some ("Task " ++ t1.id ++ " failed: " ++ errStr r1.error) ∧
    dget t1.id (run_tasks_sequential ctx (t1 :: t2 :: rest) st).1.results =
      some r1 ∧
    dget t2.id (run_tasks_sequential ctx (t1 :: t2 :: rest) st).1.results =
      none ∧
    countCalls t2.id (run_tasks_sequential ctx (t1 :: t2 :: rest) st).1 =
      countCalls t2.id st := by
  have hres := execute_task_results ctx t1 (push (Event.startTask t1.id) st)
  have hcnt := execute_task_count_ne ctx t1 (push (Event.startTask t1.id) st)
    t2.id hne
  rcases hE : execute_task ctx t1 (push (Event.startTask t1.id) st) with ⟨er, stm⟩
  rw [hE] at hexec hres hcnt
  simp only at hexec hres hcnt
  subst hexec
  have hrun : run_tasks_sequential ctx (t1 :: t2 :: rest) st =
      (push (Event.completeTask t1.id r1.success)
        { stm with results := dinsert t1.id r1 stm.results },
       some ("Task " ++ t1.id ++ " failed: " ++ errStr r1.error)) := by
    rw [run_tasks_sequential, hE]
    simp [hfail, hff]
  rw [hrun]
  refine ⟨rfl, ?_, ?_, ?_⟩
  · show dget t1.id (dinsert t1.id r1 stm.results) = some r1
    exact dget_dinsert_self t1.id r1 stm.results
  · show dget t2.id (dinsert t1.id r1 stm.results) = none
    rw [dget_dinsert_ne t2.id t1.id r1 hne, hres]
    exact hfresh
  · show stm.calls.count t2.id = countCalls t2.id st
    rw [hcnt]
    rfl

/-- Witness for C3: under `ctx_seqff`, task `a` fails, so the
sequential runner raises, records only `a`, and never calls `b`'s
handler. -/
theorem c3_sequential_fail_fast_witness :
    (run_tasks_sequential ctx_seqff [task_a, task_b] {}).2 =
      some "Task a failed: None" ∧
    dget "a" (run_tasks_sequential ctx_seqff [task_a, task_b] {}).1.results =
      some { task_id := "a", success := false } ∧
    dget "b" (run_tasks_sequential ctx_seqff [task_a, task_b] {}).1.results =
      none ∧
    countCalls "b" (run_tasks_sequential ctx_seqff [task_a, task_b] {}).1 =
      countCalls "b" {} := by
  have h := c3_sequential_fail_fast ctx_seqff task_a task_b [] {}
    { task_id := "a", success := false } rfl rfl rfl (by decide) rfl
  exact h

/-! ## Checkpoint lemmas -/

theorem run_checkpoint_loop_spec (ctx : ExecCtx) :
    ∀ (vs : List ValidationCheck) (acc : Bool) (st : ExecState),
      run_checkpoint_loop ctx vs acc st =
        (acc && vs.all (run_validation ctx),
         { st with validations_run := st.validations_run ++ vs })
  | [], acc, st => by simp [run_checkpoint_loop]
  | v :: rest, acc, st => by
    rw [run_checkpoint_loop]
    rw [run_checkpoint_loop_spec ctx rest (acc && run_validation ctx v)]
    simp [List.all_cons, Bool.and_assoc]

theorem run_checkpoint_spec (ctx : ExecCtx) (ck : String) (cp : Checkpoint)
    (st : ExecState) :
    run_checkpoint ctx ck cp st =
      (cp.validations.all (run_validation ctx),
       push (Event.completeCheckpoint ck (cp.validations.all (run_validation ctx)))
         { push (Event.startCheckpoint ck) st with
             validations_run := st.validations_run ++ cp.validations }) := by
  unfold run_checkpoint
  dsimp only
  rw [run_checkpoint_loop_spec]
  simp [push]

/-! ## Claim C7 -/

/-- C7: `_run_checkpoint` invokes every `ValidationCheck` of the
checkpoint, in order, with no short-circuit (the invocation log grows
by exactly the whole validation list even when an early check fails),
and returns `true` iff every check passed; a check whose kind is none
of the three known kinds is treated as passed. -/
theorem c7_checkpoint_all_checks (ctx : ExecCtx) (ck : String) (cp : Checkpoint)
    (st : ExecState) :
    (run_checkpoint ctx ck cp st).1 = cp.validations.all (run_validation ctx) ∧
    (run_checkpoint ctx ck cp st).2.validations_run =
      st.validations_run ++ cp.validations ∧
    (run_checkpoint ctx ck cp st).2.events =
      st.events ++ [Event.startCheckpoint ck,
        Event.completeCheckpoint ck (cp.validations.all (run_validation ctx))] ∧
    (∀ v : ValidationCheck,
      v.type ∉ ["coverage_threshold", "ci_passing", "deployment_working"] →
      run_validation ctx v = true) := by
  rw [run_checkpoint_spec]
  refine ⟨rfl, rfl, by simp [push], ?_⟩
  intro v hv
  simp only [List.mem_cons, List.not_mem_nil, or_false, not_or] at hv
  obtain ⟨h1, h2, h3⟩ := hv
  unfold run_validation
  rw [if_neg (by simp [h1]), if_neg (by simp [h2]), if_neg (by simp [h3])]

/-- Witness for C7: a checkpoint with a failing coverage check and an
unknown-kind check returns false, both checks are logged as invoked,
and the unknown kind passes. -/
theorem c7_checkpoint_all_checks_witness :
    (run_checkpoint ctx_cov_fail "after_phase_1" ck_two {}).1 =
      ck_two.validations.all (run_validation ctx_cov_fail) ∧
    (run_checkpoint ctx_cov_fail "after_phase_1" ck_two {}).2.validations_run =
      ({} : ExecState).validations_run ++ ck_two.validations ∧
    run_validation ctx_cov_fail { type := "quality_gate" } = true := by
  have h := c7_checkpoint_all_checks ctx_cov_fail "after_phase_1" ck_two {}
  exact ⟨h.1, h.2.1, h.2.2.2 { type := "quality_gate" } (by decide)⟩

/-! ## Claim C4 -/

/-- C4 counterexample: in `cfg_c4`, fail-fast is enabled and the
checkpoint after `phase_1` fails, yet `run_all_phases` completes
without raising and still runs `phase_2` — the checkpoint's boolean
result is discarded by `run_all_phases`, so a failed checkpoint does
not abort subsequent phases even under fail-fast, contrary to the
claim. -/
theorem c4_counterexample :
    ctx_c4.config.orchestrator.fail_fast = true ∧
    (run_all_phases ctx_c4 {}).2 = none ∧
    Event.completeCheckpoint "after_phase_1" false ∈
      (run_all_phases ctx_c4 {}).1.events ∧
    Event.completePhase "phase_2" true none ∈
      (run_all_phases ctx_c4 {}).1.events := by
  decide

/-- C4 (amended): in `run_all_phases`, after a phase completes
successfully, the checkpoint keyed `after_<phaseId>` is run if
declared and its pass/fail outcome is recorded in the event log; the
checkpoint's result is then discarded, so a failed checkpoint never
aborts the remaining phases — whether or not fail-fast is enabled,
the loop continues with the remaining phases. -/
theorem c4_amended_checkpoint_never_aborts (ctx : ExecCtx) (st : ExecState)
    (phase_key : String) (rest : List String) (phase : Phase) (cp : Checkpoint)
    (hp : dget phase_key ctx.config.phases = some phase)
    (hck : dget ("after_" ++ phase_key) ctx.config.checkpoints = some cp)
    (hok : (run_phase_inner ctx phase none
      (push (Event.startPhase phase_key) st)).2 = none) :
    run_all_loop ctx (phase_key :: rest) st =
      run_all_loop ctx rest
        (run_checkpoint ctx ("after_" ++ phase_key) cp
          (push (Event.completePhase phase_key true none)
            (run_phase_inner ctx phase none
              (push (Event.startPhase phase_key) st)).1)).2 ∧
    Event.completeCheckpoint ("after_" ++ phase_key)
        (run_checkpoint ctx ("after_" ++ phase_key) cp
          (push (Event.completePhase phase_key true none)
            (run_phase_inner ctx phase none
              (push (Event.startPhase phase_key) st)).1)).1 ∈
      (run_checkpoint ctx ("after_" ++ phase_key) cp
        (push (Event.completePhase phase_key true none)
          (run_phase_inner ctx phase none
            (push (Event.startPhase phase_key) st)).1)).2.events := by
  rcases hR : run_phase_inner ctx phase none
    (push (Event.startPhase phase_key) st) with ⟨st2, e⟩
  rw [hR] at hok
  simp only at hok
  subst hok
  constructor
  · rw [run_all_loop, hp]
    dsimp only
    rw [hR, hck]
  · rw [run_checkpoint_spec]
    simp [push]

/-- Witness for C4 (amended) at the concrete `ctx_c4` scenario. -/
theorem c4_amended_checkpoint_never_aborts_witness :
    run_all_loop ctx_c4 ["phase_1", "phase_2"] {} =
      run_all_loop ctx_c4 ["phase_2"]
        (run_checkpoint ctx_c4 ("after_" ++ "phase_1") cp_fail
          (push (Event.completePhase "phase_1" true none)
            (run_phase_inner ctx_c4 { name := "P1", groups := [] } none
              (push (Event.startPhase "phase_1") {})).1)).2 ∧
    Event.completeCheckpoint ("after_" ++ "phase_1")
        (run_checkpoint ctx_c4 ("after_" ++ "phase_1") cp_fail
          (push (Event.completePhase "phase_1" true none)
            (run_phase_inner ctx_c4 { name := "P1", groups := [] } none
              (push (Event.startPhase "phase_1") {})).1)).1 ∈
      (run_checkpoint ctx_c4 ("after_" ++ "phase_1") cp_fail
        (push (Event.completePhase "phase_1" true none)
          (run_phase_inner ctx_c4 { name := "P1", groups := [] } none
            (push (Event.startPhase "phase_1") {})).1)).2.events :=
  c4_amended_checkpoint_never_aborts ctx_c4 {} "phase_1" ["phase_2"]
    { name := "P1", groups := [] } cp_fail rfl rfl rfl

/-! ## Preservation of the completed-groups set by group runners -/

theorem run_tasks_sequential_completed_groups (ctx : ExecCtx) :
    ∀ (tasks : List Task) (st : ExecState),
      (run_tasks_sequential ctx tasks st).1.completed_groups =
        st.completed_groups
  | [], _ => rfl
  | task :: rest, st => by
    rw [run_tasks_sequential]
    dsimp only
    have hcg := execute_task_completed_groups ctx task
      (push (Event.startTask task.id) st)
    rcases hE : execute_task ctx task (push (Event.startTask task.id) st)
      with ⟨er, stm⟩
    rw [hE] at hcg
    simp only at hcg
    cases er with
    | ok r =>
      dsimp only
      split
      · exact hcg
      · rw [run_tasks_sequential_completed_groups ctx rest]
        exact hcg
    | error e => exact hcg

theorem run_tasks_parallel_loop_completed_groups (ctx : ExecCtx) :
    ∀ (tasks : List Task) (st : ExecState) (failures : Nat),
      (run_tasks_parallel_loop ctx tasks st failures).1.completed_groups =
        st.completed_groups
  | [], _, _ => rfl
  | task :: rest, st, failures => by
    rw [run_tasks_parallel_loop]
    dsimp only
    have hcg := execute_task_completed_groups ctx task
      (push (Event.startTask task.id) st)
    rcases hE : execute_task ctx task (push (Event.startTask task.id) st)
      with ⟨er, stm⟩
    rw [hE] at hcg
    simp only at hcg
    cases er with
    | ok r =>
      dsimp only
      rw [run_tasks_parallel_loop_completed_groups ctx rest]
      exact hcg
    | error e =>
      dsimp only
      rw [run_tasks_parallel_loop_completed_groups ctx rest]
      exact hcg

theorem run_group_completed_groups (ctx : ExecCtx) (group : Group)
    (st : ExecState) :
    (run_group ctx group st).1.completed_groups = st.completed_groups := by
  unfold run_group
  split
  · unfold run_tasks_parallel
    dsimp only
    split
    · exact run_tasks_parallel_loop_completed_groups ctx group.tasks st 0
    · exact run_tasks_parallel_loop_completed_groups ctx group.tasks st 0
  · exact run_tasks_sequential_completed_groups ctx group.tasks st

/-! ## Claim C9 -/

/-- C9: in the phase runner's per-group step, a group whose declared
prerequisites are not all in the completed-groups set at the time it
is reached is skipped: the state is unchanged except for the warning
event — no handler runs, no result entries appear, nothing is raised
— and, conversely, a group key enters the completed-groups set only
when its prerequisites were met and its `_run_group` call completed
without raising. -/
theorem c9_unmet_deps_skip (ctx : ExecCtx) (gtr : List (String × Group))
    (group_key : String) (group : Group) (st : ExecState)
    (hg : dget group_key gtr = some group)
    (hnm : dependencies_met group.depends_on st = false) :
    run_phase_step ctx gtr group_key st =
      ({ st with events := st.events ++ [Event.warnSkipGroup group_key] }, none) ∧
    (∀ st' : ExecState,
      group_key ∉ st'.completed_groups →
      group_key ∈ (run_phase_step ctx gtr group_key st').1.completed_groups →
      dependencies_met group.depends_on st' = true ∧
      (run_group ctx group (push (Event.startGroup group_key) st')).2 = none) := by
  constructor
  · unfold run_phase_step
    rw [hg]
    simp [hnm, push]
  · intro st' hnotin hin
    unfold run_phase_step at hin
    rw [hg] at hin
    dsimp only at hin
    cases hdm : dependencies_met group.depends_on st' with
    | false =>
      rw [hdm] at hin
      simp only [push] at hin
      exact absurd hin hnotin
    | true =>
      refine ⟨rfl, ?_⟩
      rw [hdm, if_pos rfl] at hin
      rcases hRG : run_group ctx group (push (Event.startGroup group_key) st')
        with ⟨st2, e⟩
      have hcg := run_group_completed_groups ctx group
        (push (Event.startGroup group_key) st')
      rw [hRG] at hin hcg
      simp only at hcg
      have hcg' : st2.completed_groups = st'.completed_groups := hcg
      cases e with
      | none => rfl
      | some err =>
        dsimp only at hin
        have hmem : group_key ∈
            (push (Event.completeGroup group_key false (some err))
              st2).completed_groups := by
          by_cases hff : ctx.config.orchestrator.fail_fast = true
          · rw [if_pos hff] at hin
            exact hin
          · rw [if_neg hff] at hin
            exact hin
        have hmem' : group_key ∈ st2.completed_groups := hmem
        rw [hcg'] at hmem'
        exact absurd hmem' hnotin

/-- Witness for C9: a group whose prerequisite `group_missing` never
ran is skipped with only a warning from the empty state, and from a
state where the prerequisite is completed the same group is added to
the completed set only because its `_run_group` call succeeded. -/
theorem c9_unmet_deps_skip_witness :
    run_phase_step ctx_cov_fail [("group_w", group_w)] "group_w" {} =
      ({ events := [Event.warnSkipGroup "group_w"] }, none) ∧
    (dependencies_met group_w.depends_on
        { completed_groups := ["group_missing"] } = true ∧
      (run_group ctx_cov_fail group_w (push (Event.startGroup "group_w")
        { completed_groups := ["group_missing"] })).2 = none) := by
  have h := c9_unmet_deps_skip ctx_cov_fail [("group_w", group_w)] "group_w"
    group_w {} rfl rfl
  exact ⟨h.1, h.2 { completed_groups := ["group_missing"] }
    (by decide) (by decide)⟩

/-! ## Claim C10 -/

/-- C10: when `run_phase` is invoked with a group filter whose derived
key `group_<filter>` names no group of the phase, the filter is
silently ignored: the selected group dict is the phase's whole group
dict and the phase runs exactly as an unfiltered run. -/
theorem c10_missing_filter_ignored (ctx : ExecCtx) (phase : Phase) (f : String)
    (st : ExecState)
    (hmiss : dget ("group_" ++ f) phase.groups = none) :
    groups_to_run phase (some f) = phase.groups ∧
    run_phase_inner ctx phase (some f) st = run_phase_inner ctx phase none st := by
  have hg : groups_to_run phase (some f) = phase.groups := by
    unfold groups_to_run
    dsimp only
    split
    · rw [hmiss]
    · rfl
  refine ⟨hg, ?_⟩
  unfold run_phase_inner
  rw [hg]
  rfl

/-- Witness for C10: filtering `phase_g` by the nonexistent group name
`zz` schedules all of its groups, identically to no filter. -/
theorem c10_missing_filter_ignored_witness :
    groups_to_run phase_g (some "zz") = phase_g.groups ∧
    run_phase_inner ctx_cov_fail phase_g (some "zz") {} =
      run_phase_inner ctx_cov_fail phase_g none {} :=
  c10_missing_filter_ignored ctx_cov_fail phase_g "zz" {} rfl

/-! ## Lemmas about the parallel interleaving system -/

theorem finish_effect_results_self (ctx : ExecCtx) (t : Task) (st : ExecState) :
    dhas t.id (finish_effect ctx t st).results = true := by
  obtain ⟨r, hok, _⟩ := execute_task_spec ctx t st
  rcases hE : execute_task ctx t st with ⟨er, st2⟩
  rw [hE] at hok
  simp only at hok
  subst hok
  unfold finish_effect
  rw [hE]
  exact dhas_dinsert_self t.id r st2.results

theorem finish_effect_results_mono (ctx : ExecCtx) (t : Task) (st : ExecState)
    (k : String) (h : dhas k st.results = true) :
    dhas k (finish_effect ctx t st).results = true := by
  obtain ⟨r, hok, _⟩ := execute_task_spec ctx t st
  have hres := execute_task_results ctx t st
  rcases hE : execute_task ctx t st with ⟨er, st2⟩
  rw [hE] at hok hres
  simp only at hok hres
  subst hok
  unfold finish_effect
  rw [hE]
  show dhas k (dinsert t.id r st2.results) = true
  refine dhas_dinsert_mono k t.id r st2.results ?_
  rw [hres]
  exact h

/-- Inductive invariant of the semaphore-bounded gather: the in-flight
census never exceeds the semaphore size, and every task is blocked, in
flight, or recorded in the result map. -/
theorem par_invariant (ctx : ExecCtx) (maxp : Nat) (tasks : List Task)
    (st : ExecState) (s : ParState) (hreach : ParReach ctx maxp tasks st s) :
    s.running.length ≤ maxp ∧
    ∀ t ∈ tasks, t ∈ s.waiting ∨ t ∈ s.running ∨ dhas t.id s.exec.results = true := by
  induction hreach with
  | refl =>
    exact ⟨Nat.zero_le _, fun t ht => Or.inl ht⟩
  | @tail b c hab hbc ih =>
    obtain ⟨ihlen, ihmem⟩ := ih
    cases hbc with
    | start t w1 w2 _ hw hcap =>
      refine ⟨?_, ?_⟩
      · simp only [List.length_append, List.length_singleton]
        omega
      · intro t' ht'
        rcases ihmem t' ht' with h | h | h
        · rw [hw] at h
          rcases List.mem_append.1 h with h | h
          · exact Or.inl (List.mem_append.2 (Or.inl h))
          · rcases List.mem_cons.1 h with h | h
            · exact Or.inr (Or.inl (List.mem_append.2 (Or.inr (h ▸ List.mem_singleton.2 rfl))))
            · exact Or.inl (List.mem_append.2 (Or.inr h))
        · exact Or.inr (Or.inl (List.mem_append.2 (Or.inl h)))
        · exact Or.inr (Or.inr h)
    | finish t r1 r2 _ hr =>
      refine ⟨?_, ?_⟩
      · rw [hr] at ihlen
        simp only [List.length_append, List.length_cons] at ihlen ⊢
        omega
      · intro t' ht'
        rcases ihmem t' ht' with h | h | h
        · exact Or.inl h
        · rw [hr] at h
          rcases List.mem_append.1 h with h | h
          · exact Or.inr (Or.inl (List.mem_append.2 (Or.inl h)))
          · rcases List.mem_cons.1 h with h | h
            · refine Or.inr (Or.inr ?_)
              rw [h]
              exact finish_effect_results_self ctx t b.exec
            · exact Or.inr (Or.inl (List.mem_append.2 (Or.inr h)))
        · exact Or.inr (Or.inr (finish_effect_results_mono ctx t b.exec t'.id h))

theorem run_tasks_parallel_loop_results_mono (ctx : ExecCtx) :
    ∀ (tasks : List Task) (st : ExecState) (failures : Nat) (k : String),
      dhas k st.results = true →
      dhas k (run_tasks_parallel_loop ctx tasks st failures).1.results = true
  | [], _, _, _, h => h
  | task :: rest, st, failures, k, h => by
    rw [run_tasks_parallel_loop]
    dsimp only
    have hres := execute_task_results ctx task (push (Event.startTask task.id) st)
    rcases hE : execute_task ctx task (push (Event.startTask task.id) st)
      with ⟨er, stm⟩
    rw [hE] at hres
    simp only at hres
    cases er with
    | ok r =>
      dsimp only
      refine run_tasks_parallel_loop_results_mono ctx rest _ _ k ?_
      show dhas k (dinsert task.id r stm.results) = true
      refine dhas_dinsert_mono k task.id r stm.results ?_
      rw [hres]
      exact h
    | error e =>
      dsimp only
      refine run_tasks_parallel_loop_results_mono ctx rest _ _ k ?_
      rw [hres]
      exact h

theorem run_tasks_parallel_loop_results (ctx : ExecCtx) :
    ∀ (tasks : List Task) (st : ExecState) (failures : Nat) (t : Task),
      t ∈ tasks →
      dhas t.id (run_tasks_parallel_loop ctx tasks st failures).1.results = true
  | [], _, _, _, ht => absurd ht (List.not_mem_nil _)
  | task :: rest, st, failures, t, ht => by
    rw [run_tasks_parallel_loop]
    dsimp only
    rcases hE : execute_task ctx task (push (Event.startTask task.id) st)
      with ⟨er, stm⟩
    rcases List.mem_cons.1 ht with h | h
    · subst h
      cases er with
      | ok r =>
        dsimp only
        refine run_tasks_parallel_loop_results_mono ctx rest _ _ t.id ?_
        exact dhas_dinsert_self t.id r stm.results
      | error e =>
        -- `_execute_task` cannot raise, so this branch is vacuous
        obtain ⟨r, hok, _⟩ := execute_task_spec ctx t (push (Event.startTask t.id) st)
        rw [hE] at hok
        simp only at hok
        cases hok
    · cases er with
      | ok r =>
        dsimp only
        exact run_tasks_parallel_loop_results ctx rest _ _ t h
      | error e =>
        dsimp only
        exact run_tasks_parallel_loop_results ctx rest _ _ t h

/-! ## Claim C8 -/

/-- C8 counterexample: with `maxParallel = 0` (an
`asyncio.Semaphore(0)` that can never be acquired) the initial
configuration of a one-task parallel group is already terminal — no
start transition is admissible — and its result map has no entry for
the task, so not every task of a parallel group produces a
`TaskResult`. -/
theorem c8_counterexample :
    ParReach ctx_c8 0 [task_t1] {} (par_init [task_t1] {}) ∧
    ParTerminal ctx_c8 0 (par_init [task_t1] {}) ∧
    dhas "t1" (par_init [task_t1] {}).exec.results = false := by
  refine ⟨Relation.ReflTransGen.refl, ?_, rfl⟩
  intro s' h
  cases h with
  | start t w1 w2 s hw hcap => exact Nat.not_lt_zero _ hcap
  | finish t r1 r2 s hr => exact absurd hr (by simp [par_init])

/-- C8 (amended): in every reachable configuration of a parallel
group's semaphore-bounded gather, at most `maxParallel` handler calls
are in flight; when `maxParallel ≥ 1`, any terminal reachable
configuration has started and finished every task — no task is
cancelled because a sibling failed — and every task has an entry in
the result map; moreover the collected failures are evaluated against
fail-fast only after the whole loop over the group's tasks has run
(the returned state is the full loop state whether or not the
post-gather `RuntimeError` is raised), and the loop gives every task a
result entry. -/
theorem c8_amended_parallel_bounded (ctx : ExecCtx) (tasks : List Task)
    (maxp : Nat) (st : ExecState) (s : ParState)
    (hreach : ParReach ctx maxp tasks st s) :
    s.running.length ≤ maxp ∧
    (ParTerminal ctx maxp s → 1 ≤ maxp →
      s.waiting = [] ∧ s.running = [] ∧
      ∀ t ∈ tasks, dhas t.id s.exec.results = true) ∧
    (run_tasks_parallel ctx tasks maxp st).1 =
      (run_tasks_parallel_loop ctx tasks st 0).1 ∧
    (∀ t ∈ tasks,
      dhas t.id (run_tasks_parallel_loop ctx tasks st 0).1.results = true) := by
  obtain ⟨hlen, hmem⟩ := par_invariant ctx maxp tasks st s hreach
  refine ⟨hlen, ?_, ?_, ?_⟩
  · intro hterm hmax
    have hrun : s.running = [] := by
      cases hrunning : s.running with
      | nil => rfl
      | cons rh rt =>
        exact absurd (ParStep.finish rh [] rt s (by rw [hrunning]; rfl)) (hterm _)
    have hwait : s.waiting = [] := by
      cases hwaiting : s.waiting with
      | nil => rfl
      | cons wh wt =>
        refine absurd (ParStep.start wh [] wt s (by rw [hwaiting]; rfl) ?_) (hterm _)
        rw [hrun]
        exact hmax
    refine ⟨hwait, hrun, ?_⟩
    intro t ht
    rcases hmem t ht with h | h | h
    · rw [hwait] at h
      exact absurd h (List.not_mem_nil t)
    · rw [hrun] at h
      exact absurd h (List.not_mem_nil t)
    · exact h
  · unfold run_tasks_parallel
    dsimp only
    split
    · rfl
    · rfl
  · intro t ht
    exact run_tasks_parallel_loop_results ctx tasks st 0 t ht

/-- Witness for C8 (amended): an explicit complete interleaving of the
three-task parallel group with `maxParallel = 2` — start `p1`, start
`p2`, finish `p1` (failed), start `p3`, finish `p2`, finish `p3` —
reaches a terminal state in which all three tasks, the failed one
included, have results; the deterministic gather model agrees. -/
theorem c8_amended_parallel_bounded_witness :
    c8s6.running.length ≤ 2 ∧
    (c8s6.waiting = [] ∧ c8s6.running = [] ∧
      ∀ t ∈ [task_p1, task_p2, task_p3], dhas t.id c8s6.exec.results = true) ∧
    (run_tasks_parallel ctx_c8 [task_p1, task_p2, task_p3] 2 {}).1 =
      (run_tasks_parallel_loop ctx_c8 [task_p1, task_p2, task_p3] {} 0).1 ∧
    (∀ t ∈ [task_p1, task_p2, task_p3],
      dhas t.id
        (run_tasks_parallel_loop ctx_c8 [task_p1, task_p2, task_p3] {} 0).1.results =
        true) := by
  have hs1 : ParStep ctx_c8 2 (par_init [task_p1, task_p2, task_p3] {}) c8s1 :=
    ParStep.start task_p1 [] [task_p2, task_p3] _ rfl (by decide)
  have hs2 : ParStep ctx_c8 2 c8s1 c8s2 :=
    ParStep.start task_p2 [] [task_p3] _ rfl (by decide)
  have hs3 : ParStep ctx_c8 2 c8s2 c8s3 :=
    ParStep.finish task_p1 [] [task_p2] _ rfl
  have hs4 : ParStep ctx_c8 2 c8s3 c8s4 :=
    ParStep.start task_p3 [] [] _ rfl (by decide)
  have hs5 : ParStep ctx_c8 2 c8s4 c8s5 :=
    ParStep.finish task_p2 [] [task_p3] _ rfl
  have hs6 : ParStep ctx_c8 2 c8s5 c8s6 :=
    ParStep.finish task_p3 [] [] _ rfl
  have hreach : ParReach ctx_c8 2 [task_p1, task_p2, task_p3] {} c8s6 :=
    Relation.ReflTransGen.head hs1 (Relation.ReflTransGen.head hs2
      (Relation.ReflTransGen.head hs3 (Relation.ReflTransGen.head hs4
        (Relation.ReflTransGen.head hs5 (Relation.ReflTransGen.head hs6
          Relation.ReflTransGen.refl)))))
  have hterm : ParTerminal ctx_c8 2 c8s6 := by
    intro s' h
    cases h with
    | start t w1 w2 _ hw hcap => exact absurd hw (by simp [c8s6])
    | finish t r1 r2 _ hr => exact absurd hr (by simp [c8s6])
  have h := c8_amended_parallel_bounded ctx_c8 [task_p1, task_p2, task_p3] 2 {}
    c8s6 hreach
  exact ⟨h.1, h.2.1 hterm (by decide), h.2.2.1, h.2.2.2⟩

end Orch
